import Mathlib

/-!
Verification of the PlanEdu course-schedule optimizer.

This file gives a shallow embedding of the scheduling core of the repository
(`apps/solver/schedule_solver.py`, `apps/serverless/solver/solver.py`, and
`apps/backend/src/scheduleSolver.py`) and proves or refutes the claims of the
natural-language specification against it.

Conventions:
* CP-SAT boolean variables become `Bool`-valued assignment functions; the
  constraints emitted by the builders become explicit constraint lists with a
  satisfaction predicate, so "every solution" quantifies over assignments
  satisfying the emitted constraints.
* Machine integers are embedded as `Int`/`Nat` (no overflow is relevant: all
  quantities are tiny minute counts, scores and scaled weights).
* A Python function that can raise inside a `try` block is embedded as a
  function returning `Option`, with `none` at the points where the source
  raises.
-/

namespace PlanEdu

/-! ### Time slots and the conflict computation

A slot is stored by the source as the single string `"DAYS HH:MM HH:MM"` and is
re-split on whitespace each time it is inspected; we keep the three
whitespace-free tokens as fields.  `minutes_since_midnight` parses an `"HH:MM"`
token. -/

structure Slot where
  days : String
  startTime : String
  endTime : String
deriving DecidableEq, Repr

/-- Split a character list at every occurrence of `sep` (the embedding of
Python `str.split(":")` on the stored time token). -/
def splitOnChar (sep : Char) : List Char → List (List Char)
  | [] => [[]]
  | c :: rest =>
      match splitOnChar sep rest with
      | [] => if c = sep then [[], []] else [[c]]
      | h :: t => if c = sep then [] :: h :: t else (c :: h) :: t

/-- Decimal parse of a digit string (the embedding of Python `int(...)` on the
hour/minute tokens). -/
def digitsToNat (cs : List Char) : Nat :=
  cs.foldl (fun n c => n * 10 + (c.toNat - 48)) 0

/-- `minutes_since_midnight` from `_build_forbidden_slot_pairs`:
`h, m = map(int, time_str.split(":")); return h * 60 + m`. -/
def minutesSinceMidnight (t : String) : Int :=
  match splitOnChar ':' t.toList with
  | [h, m] => (digitsToNat h : Int) * 60 + (digitsToNat m : Int)
  | _ => 0

/-- The body of the inner loop of `_build_forbidden_slot_pairs`: the pair
`(slot_i, slot_j)` is recorded unless the day strings differ
(`slot_i_days != slot_j_days: continue`) or the minute intervals fail to
overlap (`slot_i_start >= slot_j_end or slot_i_end <= slot_j_start`). -/
def slotPairForbidden (si sj : Slot) : Bool :=
  if si.days ≠ sj.days then false
  else
    let siStart := minutesSinceMidnight si.startTime
    let siEnd := minutesSinceMidnight si.endTime
    let sjStart := minutesSinceMidnight sj.startTime
    let sjEnd := minutesSinceMidnight sj.endTime
    if siStart ≥ sjEnd ∨ siEnd ≤ sjStart then false else true

/-- `_build_forbidden_slot_pairs` (identical in `apps/solver/schedule_solver.py`
and `apps/serverless/solver/solver.py`): the double loop over indices
`i < j` of `self.slots`, collecting the pairs passing `slotPairForbidden`. -/
def buildForbiddenSlotPairs : List Slot → List (Slot × Slot)
  | [] => []
  | s :: rest =>
      (rest.filter (fun t => slotPairForbidden s t)).map (fun t => (s, t))
        ++ buildForbiddenSlotPairs rest

/-- The weekday sets of two slots intersect: some character of the day string
of one occurs in the day string of the other.  This is the spec's notion
("share at least one weekday"), stated on the day tokens the source stores. -/
def daysIntersect (x y : String) : Bool :=
  x.toList.any (fun c => y.toList.contains c)

/-- The `[start,end)` minute intervals of two slots overlap. -/
def intervalsOverlap (si sj : Slot) : Bool :=
  decide (minutesSinceMidnight si.startTime < minutesSinceMidnight sj.endTime
    ∧ minutesSinceMidnight sj.startTime < minutesSinceMidnight si.endTime)

/-- `_enforce_no_overlapping_slots`: of the computed forbidden pairs, only
those whose two slots both carry a merged-slot variable give rise to an
`AddAtMostOne` constraint. -/
def enforceNoOverlappingSlots (slots : List Slot) (hasMergedVar : Slot → Bool) :
    List (Slot × Slot) :=
  (buildForbiddenSlotPairs slots).filter (fun p => hasMergedVar p.1 && hasMergedVar p.2)

/-- A merged-slot selection satisfies the emitted no-overlap constraints:
for each enforced pair, at most one of the two merged variables is set. -/
def noOverlapSat (cons : List (Slot × Slot)) (sel : Slot → Bool) : Prop :=
  ∀ p ∈ cons, ¬(sel p.1 = true ∧ sel p.2 = true)

instance (cons : List (Slot × Slot)) (sel : Slot → Bool) :
    Decidable (noOverlapSat cons sel) :=
  inferInstanceAs (Decidable (∀ p ∈ cons, ¬(sel p.1 = true ∧ sel p.2 = true)))

lemma slotPairForbidden_iff (si sj : Slot) :
    slotPairForbidden si sj = true ↔
      si.days = sj.days ∧ intervalsOverlap si sj = true := by
  unfold slotPairForbidden intervalsOverlap
  by_cases hd : si.days = sj.days
  · rw [if_neg (by simp [hd])]
    by_cases ho : minutesSinceMidnight si.startTime ≥ minutesSinceMidnight sj.endTime
        ∨ minutesSinceMidnight si.endTime ≤ minutesSinceMidnight sj.startTime
    · rw [if_pos ho]
      constructor
      · intro h; exact absurd h (by simp)
      · rintro ⟨-, h⟩
        exfalso
        simp only [decide_eq_true_eq] at h
        rcases ho with ho | ho <;> omega
    · rw [if_neg ho]
      push_neg at ho
      constructor
      · intro _
        refine ⟨hd, ?_⟩
        simp only [decide_eq_true_eq]
        omega
      · intro _; rfl
  · rw [if_pos (by simp [hd])]
    simp [hd]

lemma mem_buildForbiddenSlotPairs_of_get {slots : List Slot} {i j : Nat}
    (hij : i < j) (hj : j < slots.length)
    (hc : slotPairForbidden (slots.get ⟨i, Nat.lt_trans hij hj⟩) (slots.get ⟨j, hj⟩) = true) :
    (slots.get ⟨i, Nat.lt_trans hij hj⟩, slots.get ⟨j, hj⟩) ∈
      buildForbiddenSlotPairs slots := by
  induction slots generalizing i j with
  | nil => simp at hj
  | cons s rest ih =>
      unfold buildForbiddenSlotPairs
      rw [List.mem_append]
      cases i with
      | zero =>
          left
          have hj' : j - 1 < rest.length := by
            simp only [List.length_cons] at hj; omega
          have hjget : (s :: rest).get ⟨j, hj⟩ = rest.get ⟨j - 1, hj'⟩ := by
            cases j with
            | zero => omega
            | succ j' => simp [List.get]
          rw [hjget] at hc ⊢
          simp only [List.mem_map, List.mem_filter]
          exact ⟨rest.get ⟨j - 1, hj'⟩, ⟨List.get_mem _ _ _, hc⟩, rfl⟩
      | succ i' =>
          right
          cases j with
          | zero => omega
          | succ j' =>
              have hij' : i' < j' := by omega
              have hj'' : j' < rest.length := by
                simp only [List.length_cons] at hj; omega
              exact ih hij' hj'' hc

lemma forbidden_of_mem_buildForbiddenSlotPairs {slots : List Slot} {p : Slot × Slot}
    (hp : p ∈ buildForbiddenSlotPairs slots) : slotPairForbidden p.1 p.2 = true := by
  induction slots with
  | nil => simp [buildForbiddenSlotPairs] at hp
  | cons s rest ih =>
      unfold buildForbiddenSlotPairs at hp
      rw [List.mem_append] at hp
      rcases hp with hp | hp
      · simp only [List.mem_map, List.mem_filter] at hp
        obtain ⟨t, ⟨-, ht⟩, rfl⟩ := hp
        exact ht
      · exact ih hp

/-- **C1, claim as stated, refuted.**  The slots `"MW 10:00 11:00"` and
`"M 10:30 11:30"` share the weekday `M` and their `[start,end)` intervals
overlap, yet the conflict computation produces no forbidden pair for them
(the day strings are compared for equality, not intersection), and the
no-overlap constraints admit a solution selecting both. -/
theorem C1_counterexample :
    let s1 : Slot := ⟨"MW", "10:00", "11:00"⟩
    let s2 : Slot := ⟨"M", "10:30", "11:30"⟩
    daysIntersect s1.days s2.days = true ∧ intervalsOverlap s1 s2 = true ∧
    buildForbiddenSlotPairs [s1, s2] = [] ∧
    noOverlapSat (enforceNoOverlappingSlots [s1, s2] (fun _ => true)) (fun _ => true) := by
  exact ⟨by decide, by decide, by decide, by decide⟩

/-- **C1, amended.**  The conflict computation marks an ordered pair of slots
(at positions `i < j`) as conflicting iff their day strings are *equal* (not
merely intersecting) and their `[start,end)` minute intervals overlap; and
every marked pair whose two slots both carry merged-slot variables has its
co-selection forbidden by the emitted no-overlap constraints. -/
theorem C1_conflict_iff_equal_days_and_overlap (slots : List Slot)
    (i j : Nat) (hij : i < j) (hj : j < slots.length)
    (hasMergedVar : Slot → Bool) (sel : Slot → Bool)
    (hsat : noOverlapSat (enforceNoOverlappingSlots slots hasMergedVar) sel) :
    ((slots.get ⟨i, Nat.lt_trans hij hj⟩, slots.get ⟨j, hj⟩) ∈
        buildForbiddenSlotPairs slots ↔
      (slots.get ⟨i, Nat.lt_trans hij hj⟩).days = (slots.get ⟨j, hj⟩).days ∧
        intervalsOverlap (slots.get ⟨i, Nat.lt_trans hij hj⟩) (slots.get ⟨j, hj⟩) = true) ∧
    (∀ p ∈ buildForbiddenSlotPairs slots,
      hasMergedVar p.1 = true → hasMergedVar p.2 = true →
        ¬(sel p.1 = true ∧ sel p.2 = true)) := by
  constructor
  · constructor
    · intro hmem
      exact (slotPairForbidden_iff _ _).mp (forbidden_of_mem_buildForbiddenSlotPairs hmem)
    · intro hc
      exact mem_buildForbiddenSlotPairs_of_get hij hj ((slotPairForbidden_iff _ _).mpr hc)
  · intro p hp h1 h2
    apply hsat
    simp only [enforceNoOverlappingSlots, List.mem_filter, Bool.and_eq_true]
    exact ⟨hp, h1, h2⟩

/-- Witness for `C1_conflict_iff_equal_days_and_overlap` at a concrete model:
two slots with equal day strings and overlapping intervals. -/
theorem C1_conflict_iff_equal_days_and_overlap_witness :
    let s1 : Slot := ⟨"MW", "10:00", "11:00"⟩
    let s2 : Slot := ⟨"MW", "10:30", "11:30"⟩
    ((([s1, s2] : List Slot).get ⟨0, by decide⟩, ([s1, s2] : List Slot).get ⟨1, by decide⟩) ∈
        buildForbiddenSlotPairs [s1, s2] ↔
      (([s1, s2] : List Slot).get ⟨0, by decide⟩).days
          = (([s1, s2] : List Slot).get ⟨1, by decide⟩).days ∧
        intervalsOverlap (([s1, s2] : List Slot).get ⟨0, by decide⟩)
          (([s1, s2] : List Slot).get ⟨1, by decide⟩) = true) ∧
    (∀ p ∈ buildForbiddenSlotPairs [s1, s2],
      (fun (_ : Slot) => true) p.1 = true → (fun (_ : Slot) => true) p.2 = true →
        ¬((fun s => decide (s = s1)) p.1 = true ∧ (fun s => decide (s = s1)) p.2 = true)) :=
  C1_conflict_iff_equal_days_and_overlap [⟨"MW", "10:00", "11:00"⟩, ⟨"MW", "10:30", "11:30"⟩]
    0 1 (by decide) (by decide) (fun _ => true) (fun s => decide (s = ⟨"MW", "10:00", "11:00"⟩))
    (by decide)

/-! ### The multi-semester solver (`apps/solver/schedule_solver.py`)

Courses carry an id, a score and the list of slots of their sections.  CP-SAT
boolean variables become `Bool`-valued selection functions; each builder
method of `ScheduleSolver.__init__` becomes one conjunct of the satisfaction
predicate, quantified over exactly the variables the source creates. -/

structure ACourse where
  id : String
  score : Int
  slots_ids : List Slot
deriving DecidableEq, Repr

structure AInstance where
  courses : List ACourse
  slots : List Slot
  completedIds : List String
  numFutureSemesters : Nat
  numCoursesPerSemester : Nat
deriving Repr

/-- The comparator of `candidate_courses.sort(key=lambda course: course["score"],
reverse=True)`: descending score. -/
def scoreDesc (a b : ACourse) : Prop := b.score ≤ a.score

instance : DecidableRel scoreDesc := fun a b => inferInstanceAs (Decidable (b.score ≤ a.score))

instance : IsTotal ACourse scoreDesc := ⟨fun a b => le_total b.score a.score⟩

instance : IsTrans ACourse scoreDesc := ⟨fun _ _ _ h1 h2 => le_trans h2 h1⟩

/-- `_select_semester_candidates`: semester 0 returns `self.courses`; a later
semester filters out completed courses, sorts by descending score (Python's
stable sort, embedded as a stable insertion sort) and keeps the first 100. -/
def selectSemesterCandidates (inst : AInstance) (semesterIndex : Nat) : List ACourse :=
  if semesterIndex = 0 then inst.courses
  else
    (((inst.courses.filter (fun c => !(inst.completedIds.contains c.id))).insertionSort
        scoreDesc).take 100)

structure ASolution where
  slotSel : String → Slot → Bool
  courseSel : Nat → String → Bool
  mergedSlot : Slot → Bool
  mergedCourse : String → Bool

def b2n (b : Bool) : Nat := if b then 1 else 0

def boolSum : List Bool → Nat
  | [] => 0
  | b :: t => b2n b + boolSum t

/-- The semesters for which `_build_course_vars` creates a variable for the
course `cid`: those whose candidate list contains it. -/
def aCourseVarSemesters (inst : AInstance) (cid : String) : List Nat :=
  (List.range inst.numFutureSemesters).filter
    (fun s => (selectSemesterCandidates inst s).any (fun c => c.id = cid))

/-- The constraints emitted by `ScheduleSolver.__init__` of
`apps/solver/schedule_solver.py`, in order:
`_build_merged_slot_vars` (at-most-one chosen section per slot, merged-slot =
OR), `_build_merged_course_vars`/`_enforce_no_duplicate_courses` (at-most-one
semester per course, merged-course = OR), `_enforce_exactly_one_slot_per_course`
(section sum equals the semester-0 course variable),
`_enforce_no_overlapping_slots`, and `_enforce_num_courses_per_semester`
(exact load per semester). -/
def ASolution.satisfies (inst : AInstance) (sol : ASolution) : Prop :=
  (∀ c ∈ selectSemesterCandidates inst 0,
      boolSum (c.slots_ids.map (sol.slotSel c.id)) = b2n (sol.courseSel 0 c.id)) ∧
  (∀ slot ∈ inst.slots,
      ((selectSemesterCandidates inst 0).filter (fun c => c.slots_ids.contains slot)) ≠ [] →
        boolSum (((selectSemesterCandidates inst 0).filter
            (fun c => c.slots_ids.contains slot)).map (fun c => sol.slotSel c.id slot)) ≤ 1 ∧
        sol.mergedSlot slot = ((selectSemesterCandidates inst 0).filter
            (fun c => c.slots_ids.contains slot)).any (fun c => sol.slotSel c.id slot)) ∧
  noOverlapSat (enforceNoOverlappingSlots inst.slots
      (fun slot => (selectSemesterCandidates inst 0).any
        (fun c => c.slots_ids.contains slot))) sol.mergedSlot ∧
  (∀ course ∈ inst.courses,
      ((aCourseVarSemesters inst course.id).map (fun s => sol.courseSel s course.id)) ≠ [] →
        boolSum ((aCourseVarSemesters inst course.id).map
            (fun s => sol.courseSel s course.id)) ≤ 1 ∧
        sol.mergedCourse course.id = ((aCourseVarSemesters inst course.id).map
            (fun s => sol.courseSel s course.id)).any id) ∧
  (∀ s ∈ List.range inst.numFutureSemesters,
      boolSum ((selectSemesterCandidates inst s).map (fun c => sol.courseSel s c.id))
        = inst.numCoursesPerSemester)

instance (inst : AInstance) (sol : ASolution) : Decidable (sol.satisfies inst) := by
  unfold ASolution.satisfies
  infer_instance

/-- The chosen-course decode of `solve` in `apps/solver/schedule_solver.py`:
a course is reported for semester `s` iff it has a variable there
(`course_id in self.course_vars[semester_index]`) and that variable is set. -/
def aPlan (inst : AInstance) (sol : ASolution) (s : Nat) : List String :=
  (inst.courses.filter (fun c =>
      (selectSemesterCandidates inst s).any (fun c2 => c2.id = c.id)
        && sol.courseSel s c.id)).map (·.id)

/-! ### The serverless solver (`apps/serverless/solver/solver.py`), core model

Here every course gets a variable in every semester index of `[-1, last]`,
completed courses are pinned at index `-1`, and merged-by-semester variables
exist for every `(semester, course)` pair. -/

structure SCourse where
  id : String
  school : String
  department : String
  number : String
  score : Int
  slots_ids : List Slot
deriving DecidableEq, Repr

structure SInstance where
  courses : List SCourse
  slots : List Slot
  completedIds : List String
  numFutureSemesters : Nat
  numCoursesPerSemester : Nat
deriving Repr

/-- The semester indices `range(-1, self.num_future_semesters)`. -/
def sSemesterIndices (inst : SInstance) : List Int :=
  (List.range (inst.numFutureSemesters + 1)).map (fun i => (i : Int) - 1)

structure SSolution where
  slotSel : String → Slot → Bool
  courseSel : Int → String → Bool
  mergedSlot : Slot → Bool
  mergedCourse : Int → String → Bool

/-- The core constraints emitted by `ScheduleSolver.__init__` of
`apps/serverless/solver/solver.py`, in order:
`_enforce_exactly_one_slot_per_course`, `_build_merged_slot_vars`,
`_enforce_no_overlapping_slots`, `_build_merged_course_vars` (the merged
variable is the OR of the course variables of indices `≤ s`),
`_enforce_no_duplicate_courses` (at most one semester index per course, over
`[-1, last]`), `_enforce_num_courses_per_semester`, and
`_enforce_completed_courses` (`x[c,-1] = 1` iff completed).  The prerequisite
and graduation constraints only add further constraints, so every solution of
the full model also satisfies this predicate. -/
def SSolution.satisfies (inst : SInstance) (sol : SSolution) : Prop :=
  (∀ c ∈ inst.courses,
      boolSum (c.slots_ids.map (sol.slotSel c.id)) = b2n (sol.courseSel 0 c.id)) ∧
  (∀ slot ∈ inst.slots,
      (inst.courses.filter (fun c => c.slots_ids.contains slot)) ≠ [] →
        boolSum ((inst.courses.filter (fun c => c.slots_ids.contains slot)).map
            (fun c => sol.slotSel c.id slot)) ≤ 1 ∧
        sol.mergedSlot slot = (inst.courses.filter
            (fun c => c.slots_ids.contains slot)).any (fun c => sol.slotSel c.id slot)) ∧
  noOverlapSat (enforceNoOverlappingSlots inst.slots
      (fun slot => inst.courses.any (fun c => c.slots_ids.contains slot))) sol.mergedSlot ∧
  (∀ c ∈ inst.courses, ∀ s ∈ sSemesterIndices inst,
      sol.mergedCourse s c.id = ((sSemesterIndices inst).filter (fun s2 => s2 ≤ s)).any
        (fun s2 => sol.courseSel s2 c.id)) ∧
  (∀ c ∈ inst.courses,
      boolSum ((sSemesterIndices inst).map (fun s => sol.courseSel s c.id)) ≤ 1) ∧
  (∀ s ∈ List.range inst.numFutureSemesters,
      boolSum (inst.courses.map (fun c => sol.courseSel (s : Int) c.id))
        = inst.numCoursesPerSemester) ∧
  (∀ c ∈ inst.courses, sol.courseSel (-1) c.id = inst.completedIds.contains c.id)

instance (inst : SInstance) (sol : SSolution) : Decidable (sol.satisfies inst) := by
  unfold SSolution.satisfies
  infer_instance

/-- The per-semester plan decode of the serverless `solve`: the ids of the
courses whose variable at index `s` is set. -/
def sPlan (inst : SInstance) (sol : SSolution) (s : Int) : List String :=
  (inst.courses.filter (fun c => sol.courseSel s c.id)).map (·.id)

/-- The semester-0 section assignments decode of the serverless `solve`:
for each course chosen at index 0, the selected slots of that course. -/
def sAssignments (inst : SInstance) (sol : SSolution) : List (String × Slot) :=
  (inst.courses.filter (fun c => sol.courseSel 0 c.id)).flatMap
    (fun c => (c.slots_ids.filter (fun sl => sol.slotSel c.id sl)).map (fun sl => (c.id, sl)))

lemma boolSum_map_cons (f : α → Bool) (x : α) (t : List α) :
    boolSum ((x :: t).map f) = b2n (f x) + boolSum (t.map f) := rfl

lemma one_le_boolSum_map {l : List α} {f : α → Bool} {b : α}
    (hb : b ∈ l) (hfb : f b = true) : 1 ≤ boolSum (l.map f) := by
  induction l with
  | nil => simp at hb
  | cons x t ih =>
      rw [boolSum_map_cons]
      rcases List.mem_cons.mp hb with rfl | hb'
      · simp [b2n, hfb]
      · exact le_add_of_nonneg_of_le (Nat.zero_le _) (ih hb')

lemma two_le_boolSum_map {l : List α} {f : α → Bool} {a b : α}
    (ha : a ∈ l) (hb : b ∈ l) (hab : a ≠ b)
    (hfa : f a = true) (hfb : f b = true) : 2 ≤ boolSum (l.map f) := by
  induction l with
  | nil => simp at ha
  | cons x t ih =>
      rw [boolSum_map_cons]
      rcases List.mem_cons.mp ha with rfl | ha'
      · have hb' : b ∈ t := by
          rcases List.mem_cons.mp hb with rfl | hb'
          · exact absurd rfl hab
          · exact hb'
        have := one_le_boolSum_map hb' hfb
        simp only [b2n, hfa, if_true]
        omega
      · rcases List.mem_cons.mp hb with rfl | hb'
        · have := one_le_boolSum_map ha' hfa
          simp only [b2n, hfb, if_true]
          omega
        · exact le_add_of_nonneg_of_le (Nat.zero_le _) (ih ha' hb')

/-- **C2, claim as stated, refuted.**  In the multi-semester solver of
`apps/solver/schedule_solver.py`, `_select_semester_candidates` excludes
completed courses only for semester indices `≥ 1`; semester 0 enumerates
*every* course, and nothing pins a completed course's semester-0 variable to 0.
Concretely: a model with the single completed course `"A"` and a required load
of one course per semester has a solution selecting `"A"` in semester 0, where
it also appears in the decoded plan. -/
theorem C2_counterexample :
    let slotM : Slot := ⟨"M", "09:00", "10:00"⟩
    let inst : AInstance := ⟨[⟨"A", 0, [slotM]⟩], [slotM], ["A"], 1, 1⟩
    let sol : ASolution := ⟨fun _ _ => true, fun _ _ => true, fun _ => true, fun _ => true⟩
    sol.satisfies inst ∧ inst.completedIds.contains "A" = true ∧
      sol.courseSel 0 "A" = true ∧ "A" ∈ aPlan inst sol 0 := by
  exact ⟨by decide, by decide, by decide, by decide⟩

/-- **C2, amended.**  In the serverless solver
(`apps/serverless/solver/solver.py`), every solution gives every completed
course `x[c,s] = 0` for all semester indices `s ≥ 0`, and the completed course
appears in neither the per-semester plan nor the semester-0 section
assignments: `_enforce_completed_courses` pins `x[c,-1] = 1` and the
at-most-one-semester constraint then forces all other indices to 0.  (In the
multi-semester solver of `apps/solver/schedule_solver.py`, completed courses
are excluded only from semesters `s ≥ 1` and may be selected in semester 0.) -/
theorem C2_completed_courses_excluded (inst : SInstance) (sol : SSolution)
    (hsat : sol.satisfies inst) (c : SCourse) (hc : c ∈ inst.courses)
    (hcomp : inst.completedIds.contains c.id = true)
    (hfut : 1 ≤ inst.numFutureSemesters) :
    (∀ s ∈ sSemesterIndices inst, 0 ≤ s → sol.courseSel s c.id = false) ∧
    (∀ s ∈ sSemesterIndices inst, 0 ≤ s → c.id ∉ sPlan inst sol s) ∧
    (∀ sl : Slot, (c.id, sl) ∉ sAssignments inst sol) := by
  obtain ⟨-, -, -, -, hdup, -, hcompleted⟩ := hsat
  have hpin : sol.courseSel (-1) c.id = true := (hcompleted c hc).trans hcomp
  have hneg1 : (-1 : Int) ∈ sSemesterIndices inst := by
    unfold sSemesterIndices
    norm_num
    refine ⟨0, ?_, ?_⟩ <;> omega
  have hzero : ∀ s ∈ sSemesterIndices inst, 0 ≤ s → sol.courseSel s c.id = false := by
    intro s hs hs0
    by_contra hsel
    rw [Bool.not_eq_false] at hsel
    have h2 : 2 ≤ boolSum ((sSemesterIndices inst).map (fun s => sol.courseSel s c.id)) :=
      two_le_boolSum_map hneg1 hs (by omega) hpin hsel
    have h1 := hdup c hc
    omega
  refine ⟨hzero, ?_, ?_⟩
  · intro s hs hs0 hmem
    simp only [sPlan, List.mem_map, List.mem_filter] at hmem
    obtain ⟨c2, ⟨-, hc2sel⟩, hc2id⟩ := hmem
    rw [hc2id] at hc2sel
    rw [hzero s hs hs0] at hc2sel
    exact absurd hc2sel (by simp)
  · intro sl hmem
    have h0mem : (0 : Int) ∈ sSemesterIndices inst := by
      unfold sSemesterIndices
      norm_num
      exact ⟨1, ⟨1, by omega, by norm_num⟩, by norm_num⟩
    simp only [sAssignments, List.mem_flatMap, List.mem_filter, List.mem_map] at hmem
    obtain ⟨c2, ⟨-, hc2sel⟩, sl2, -, hpair⟩ := hmem
    have hc2id : c2.id = c.id := congrArg Prod.fst hpair
    rw [hc2id] at hc2sel
    rw [hzero 0 h0mem le_rfl] at hc2sel
    exact absurd hc2sel (by simp)

/-- Witness for `C2_completed_courses_excluded`: a two-course serverless
instance with `"A"` completed and `"B"` taken in semester 0. -/
theorem C2_completed_courses_excluded_witness :
    let slotA : Slot := ⟨"M", "09:00", "10:00"⟩
    let slotB : Slot := ⟨"T", "09:00", "10:00"⟩
    let cA : SCourse := ⟨"A", "CAS", "CS", "111", 0, [slotA]⟩
    let cB : SCourse := ⟨"B", "CAS", "CS", "112", 0, [slotB]⟩
    let inst : SInstance := ⟨[cA, cB], [slotA, slotB], ["A"], 1, 1⟩
    let sol : SSolution :=
      ⟨fun cid _ => cid = "B",
        fun s cid => (s = -1 && cid = "A") || (s = 0 && cid = "B"),
        fun sl => sl = slotB,
        fun s cid => (cid = "A") || (cid = "B" && s = 0)⟩
    (∀ s ∈ sSemesterIndices inst, 0 ≤ s → sol.courseSel s cA.id = false) ∧
    (∀ s ∈ sSemesterIndices inst, 0 ≤ s → cA.id ∉ sPlan inst sol s) ∧
    (∀ sl : Slot, (cA.id, sl) ∉ sAssignments inst sol) :=
  C2_completed_courses_excluded _ _ (by decide) _ (by decide) (by decide) (by decide)

/-- **C10 (confirmed).**  In the multi-semester solver, for every semester
index `s ≥ 1` the candidate list (the courses receiving decision variables)
contains only non-completed courses, has at most 100 entries, and
score-dominates every non-completed course left out; any course outside it
cannot appear in the decoded plan of semester `s`.  Semester 0's candidate
list is the whole catalog. -/
theorem C10_top100_candidates (inst : AInstance) (s : Nat) (hs : 1 ≤ s) :
    (∀ c ∈ selectSemesterCandidates inst s, inst.completedIds.contains c.id = false) ∧
    (selectSemesterCandidates inst s).length ≤ 100 ∧
    (∀ c ∈ selectSemesterCandidates inst s, ∀ d ∈ inst.courses,
        inst.completedIds.contains d.id = false →
          d ∉ selectSemesterCandidates inst s → d.score ≤ c.score) ∧
    selectSemesterCandidates inst 0 = inst.courses ∧
    (∀ sol : ASolution, ∀ cid : String,
        (∀ c ∈ selectSemesterCandidates inst s, c.id ≠ cid) → cid ∉ aPlan inst sol s) := by
  have hne : s ≠ 0 := by omega
  have hcand : selectSemesterCandidates inst s =
      ((inst.courses.filter (fun c => !(inst.completedIds.contains c.id))).insertionSort
        scoreDesc).take 100 := by
    rw [selectSemesterCandidates, if_neg hne]
  refine ⟨?_, ?_, ?_, rfl, ?_⟩
  · intro c hc
    rw [hcand] at hc
    have hc2 : c ∈ (inst.courses.filter
        (fun c => !(inst.completedIds.contains c.id))).insertionSort scoreDesc :=
      List.take_subset _ _ hc
    have hc3 := (List.perm_insertionSort scoreDesc _).mem_iff.mp hc2
    have := (List.mem_filter.mp hc3).2
    simpa using this
  · rw [hcand]
    exact (List.length_take _ _).trans_le (Nat.min_le_left _ _)
  · intro c hc d hd hdcomp hdnot
    set sorted := (inst.courses.filter
        (fun c => !(inst.completedIds.contains c.id))).insertionSort scoreDesc with hsorted
    have hdfilter : d ∈ inst.courses.filter (fun c => !(inst.completedIds.contains c.id)) :=
      List.mem_filter.mpr ⟨hd, by simp only [hdcomp, Bool.not_false]⟩
    have hdsorted : d ∈ sorted := (List.perm_insertionSort scoreDesc _).mem_iff.mpr hdfilter
    have hddrop : d ∈ sorted.drop 100 := by
      have := (List.take_append_drop 100 sorted) ▸ hdsorted
      rcases List.mem_append.mp this with h | h
      · exact absurd (hcand ▸ h) hdnot
      · exact h
    have hpair : List.Pairwise scoreDesc (sorted.take 100 ++ sorted.drop 100) := by
      rw [List.take_append_drop]
      exact List.sorted_insertionSort scoreDesc _
    exact (List.pairwise_append.mp hpair).2.2 c (hcand ▸ hc) d hddrop
  · intro sol cid hout hmem
    simp only [aPlan, List.mem_map, List.mem_filter, Bool.and_eq_true, List.any_eq_true,
      decide_eq_true_eq] at hmem
    obtain ⟨c2, ⟨-, ⟨c3, hc3, hc3id⟩, -⟩, hc2id⟩ := hmem
    exact hout c3 hc3 (hc3id.trans hc2id)

/-- Witness for `C10_top100_candidates`: a three-course instance with one
completed course, at semester index 1. -/
theorem C10_top100_candidates_witness :
    let cA : ACourse := ⟨"A", 5, []⟩
    let cB : ACourse := ⟨"B", 3, []⟩
    let cC : ACourse := ⟨"C", 9, []⟩
    let inst : AInstance := ⟨[cA, cB, cC], [], ["B"], 2, 1⟩
    (∀ c ∈ selectSemesterCandidates inst 1, inst.completedIds.contains c.id = false) ∧
    (selectSemesterCandidates inst 1).length ≤ 100 ∧
    (∀ c ∈ selectSemesterCandidates inst 1, ∀ d ∈ inst.courses,
        inst.completedIds.contains d.id = false →
          d ∉ selectSemesterCandidates inst 1 → d.score ≤ c.score) ∧
    selectSemesterCandidates inst 0 = inst.courses ∧
    (∀ sol : ASolution, ∀ cid : String,
        (∀ c ∈ selectSemesterCandidates inst 1, c.id ≠ cid) → cid ∉ aPlan inst sol 1) :=
  C10_top100_candidates _ 1 (by decide)

/-! ### Variable linking: backend `_build_variables` vs serverless
`_enforce_exactly_one_slot_per_course` -/

/-- The linking constraints emitted by `_build_variables` in
`apps/backend/src/scheduleSolver.py` for one class with section list `rids`:
`sum(z[rid] for rid in rids) >= x`, `z[rid] <= x` for each section, and
`sum(z[rid] for rid in rids) <= 1`. -/
def backendLinkSat (z : String → Bool) (rids : List String) (x : Bool) : Prop :=
  b2n x ≤ boolSum (rids.map z) ∧ (∀ r ∈ rids, b2n (z r) ≤ b2n x) ∧
    boolSum (rids.map z) ≤ 1

/-- The linking constraint emitted by `_enforce_exactly_one_slot_per_course`
in `apps/serverless/solver/solver.py` for one course:
`sum(course_slot_vars) == course_var`. -/
def serverlessLinkSat (z : String → Bool) (rids : List String) (x : Bool) : Prop :=
  boolSum (rids.map z) = b2n x

instance (z : String → Bool) (rids : List String) (x : Bool) :
    Decidable (backendLinkSat z rids x) := by
  unfold backendLinkSat
  infer_instance

instance (z : String → Bool) (rids : List String) (x : Bool) :
    Decidable (serverlessLinkSat z rids x) := by
  unfold serverlessLinkSat
  infer_instance

lemma b2n_false : b2n false = 0 := rfl

lemma b2n_true : b2n true = 1 := rfl

lemma boolSum_map_eq_zero {l : List α} {f : α → Bool}
    (h : ∀ a ∈ l, f a = false) : boolSum (l.map f) = 0 := by
  induction l with
  | nil => rfl
  | cons x t ih =>
      rw [boolSum_map_cons, h x (List.mem_cons_self _ _), b2n_false]
      simpa using ih (fun a ha => h a (List.mem_cons_of_mem _ ha))

/-- **C4 (confirmed).**  Over booleans, the backend's inequality encoding of
the course/section link (`sum z >= x`, each `z <= x`, `sum z <= 1`) is
equivalent to the serverless solver's direct equation `sum z == x`, and either
implies that at most one section of the course is chosen, with the sum of
chosen-section variables equal to the course variable. -/
theorem C4_link_encodings_equivalent (z : String → Bool) (rids : List String) (x : Bool) :
    (backendLinkSat z rids x ↔ serverlessLinkSat z rids x) ∧
    (backendLinkSat z rids x →
      boolSum (rids.map z) ≤ 1 ∧ boolSum (rids.map z) = b2n x) := by
  have hforward : backendLinkSat z rids x → serverlessLinkSat z rids x := by
    rintro ⟨h1, h2, h3⟩
    unfold serverlessLinkSat
    cases x with
    | true => rw [b2n_true] at h1 ⊢; omega
    | false =>
        rw [b2n_false]
        apply boolSum_map_eq_zero
        intro r hr
        have := h2 r hr
        rw [b2n_false] at this
        cases hzr : z r with
        | true => rw [hzr, b2n_true] at this; omega
        | false => rfl
  refine ⟨⟨hforward, ?_⟩, fun h => ⟨h.2.2, hforward h⟩⟩
  intro h
  unfold serverlessLinkSat at h
  unfold backendLinkSat
  refine ⟨le_of_eq h.symm, ?_, ?_⟩
  · intro r hr
    cases x with
    | true => rw [b2n_true]; cases z r <;> simp [b2n]
    | false =>
        rw [b2n_false] at h
        by_contra hc
        have hzr : z r = true := by
          cases hzr : z r with
          | true => rfl
          | false => rw [hzr, b2n_false] at hc; exact absurd le_rfl hc
        have := one_le_boolSum_map hr hzr
        omega
  · rw [h]
    cases x <;> simp [b2n]

/-- Witness for `C4_link_encodings_equivalent` at a concrete single-section
course with the section chosen. -/
theorem C4_link_encodings_equivalent_witness :
    let z : String → Bool := fun r => r = "r1"
    (backendLinkSat z ["r1", "r2"] true ↔ serverlessLinkSat z ["r1", "r2"] true) ∧
    (backendLinkSat z ["r1", "r2"] true →
      boolSum (["r1", "r2"].map z) ≤ 1 ∧ boolSum (["r1", "r2"].map z) = b2n true) :=
  C4_link_encodings_equivalent (fun r => r = "r1") ["r1", "r2"] true

/-! ### `_apply_include_course` (backend) -/

/-- The constraints emitted by `_apply_include_course`: `0 == 1` for an id
without a variable, `x[cid] == 1` otherwise. -/
inductive XCons where
  | infeasibleMarker
  | pinOne (cid : String)
deriving DecidableEq, Repr

/-- `_apply_include_course` of `apps/backend/src/scheduleSolver.py`: for each
referenced course id, `if cid not in self.x: self.model.Add(0 == 1)` else
`self.model.Add(self.x[cid] == 1)`.  `xKeys` is the set of class ids that
received a variable (the classes appearing in `relations`). -/
def applyIncludeCourse (xKeys : List String) (courseIds : List String) : List XCons :=
  courseIds.map (fun cid =>
    if !(xKeys.contains cid) then XCons.infeasibleMarker else XCons.pinOne cid)

def XCons.sat (asg : String → Bool) : XCons → Prop
  | .infeasibleMarker => (0 : Int) = 1
  | .pinOne cid => asg cid = true

instance (asg : String → Bool) : (c : XCons) → Decidable (c.sat asg)
  | .infeasibleMarker => inferInstanceAs (Decidable ((0 : Int) = 1))
  | .pinOne cid => inferInstanceAs (Decidable (asg cid = true))

/-- **C5 (confirmed).**  Every course id referenced by an `include_course`
constraint that has a variable is hard-pinned to 1 in every assignment
satisfying the emitted constraints; and if any referenced id has no variable,
the emitted constraints are unsatisfiable (the builder adds the contradiction
`0 == 1` rather than dropping the rule). -/
theorem C5_include_course (xKeys courseIds : List String) :
    (∀ cid ∈ courseIds, xKeys.contains cid = true →
      ∀ asg : String → Bool,
        (∀ c ∈ applyIncludeCourse xKeys courseIds, c.sat asg) → asg cid = true) ∧
    ((∃ cid ∈ courseIds, xKeys.contains cid = false) →
      ¬ ∃ asg : String → Bool, ∀ c ∈ applyIncludeCourse xKeys courseIds, c.sat asg) := by
  constructor
  · intro cid hcid hkey asg hsat
    have hmem : XCons.pinOne cid ∈ applyIncludeCourse xKeys courseIds := by
      unfold applyIncludeCourse
      refine List.mem_map.mpr ⟨cid, hcid, ?_⟩
      rw [hkey]
      rfl
    exact hsat _ hmem
  · rintro ⟨cid, hcid, hkey⟩ ⟨asg, hsat⟩
    have hmem : XCons.infeasibleMarker ∈ applyIncludeCourse xKeys courseIds := by
      unfold applyIncludeCourse
      refine List.mem_map.mpr ⟨cid, hcid, ?_⟩
      rw [hkey]
      rfl
    have := hsat _ hmem
    exact absurd this (by simp [XCons.sat])

/-- Witness for `C5_include_course`: catalog `{"a"}`, include ids
`["a", "b"]`; the emitted constraints are unsatisfiable because `"b"` has no
section, and any satisfying assignment would pin `"a"`. -/
theorem C5_include_course_witness :
    (∀ asg : String → Bool,
      (∀ c ∈ applyIncludeCourse ["a"] ["a", "b"], c.sat asg) → asg "a" = true) ∧
    ¬ ∃ asg : String → Bool, ∀ c ∈ applyIncludeCourse ["a"] ["a", "b"], c.sat asg :=
  ⟨(C5_include_course ["a"] ["a", "b"]).1 "a" (by decide) (by decide),
    (C5_include_course ["a"] ["a", "b"]).2 ⟨"b", by decide, by decide⟩⟩

/-! ### Objective scaling and term storage (backend) -/

/-- `self._SCALE = 1000`. -/
def SCALE : Int := 1000

/-- Python's built-in `round` (round half to even) on an exact rational. -/
def pyRound (q : ℚ) : Int :=
  if Int.fract q = 1 / 2 then (if Even ⌊q⌋ then ⌊q⌋ else ⌊q⌋ + 1) else round q

/-- `self._S = lambda v: int(round(float(v) * self._SCALE))`, the float weight
embedded as an exact rational. -/
def scaleWeight (v : ℚ) : Int := pyRound (v * (SCALE : ℚ))

/-- The objective-term store `objective_groups` with its four tiers.  A pair
is `(variable, integer coefficient)`; the variable is `none` when `_x_var`
returned the literal constant 0. -/
def initialObjectiveGroups : List (String × List (Option Nat × Int)) :=
  [("bookmarks", []), ("degree_progress", []), ("comfort", []), ("custom", [])]

/-- `_add_term`: `if coeff_int != 0: self.objective_groups[group].append((var, coeff_int))`. -/
def addTerm (groups : List (String × List (Option Nat × Int))) (g : String)
    (var : Option Nat) (coeff : Int) : List (String × List (Option Nat × Int)) :=
  if coeff ≠ 0 then
    groups.map (fun p => if p.1 = g then (p.1, p.2 ++ [(var, coeff)]) else p)
  else groups

lemma addTerm_no_zero_coeff {groups : List (String × List (Option Nat × Int))}
    (hinv : ∀ q ∈ groups, ∀ p ∈ q.2, p.2 ≠ 0)
    (g : String) (var : Option Nat) (coeff : Int) :
    ∀ q ∈ addTerm groups g var coeff, ∀ p ∈ q.2, p.2 ≠ 0 := by
  intro q hq p hp
  unfold addTerm at hq
  by_cases hc : coeff ≠ 0
  · rw [if_pos hc] at hq
    obtain ⟨q0, hq0, hq0eq⟩ := List.mem_map.mp hq
    by_cases hg : q0.1 = g
    · rw [if_pos hg] at hq0eq
      rw [← hq0eq] at hp
      rcases List.mem_append.mp hp with hp | hp
      · exact hinv q0 hq0 p hp
      · simp only [List.mem_singleton] at hp
        rw [hp]
        exact hc
    · rw [if_neg hg] at hq0eq
      exact hinv q0 hq0 p (hq0eq ▸ hp)
  · rw [if_neg hc] at hq
    exact hinv q hq p hp

/-- **C8 (confirmed).**  The scaled coefficient used for a soft weight `w` is
the integer nearest `w * SCALE` with `SCALE = 1000` (within a half, Python's
round-half-to-even), and after any sequence of `_add_term` calls starting from
the empty store no tier contains a term with coefficient 0. -/
theorem C8_scale_and_drop_zero :
    (∀ w : ℚ, |((scaleWeight w : ℚ)) - w * (SCALE : ℚ)| ≤ 1 / 2 ∧ SCALE = 1000) ∧
    (∀ ops : List (String × Option Nat × Int), ∀ q ∈ ops.foldl
        (fun gs op => addTerm gs op.1 op.2.1 op.2.2) initialObjectiveGroups,
      ∀ p ∈ q.2, p.2 ≠ 0) := by
  constructor
  · intro w
    refine ⟨?_, rfl⟩
    unfold scaleWeight pyRound
    set q : ℚ := w * (SCALE : ℚ) with hq
    by_cases hf : Int.fract q = 1 / 2
    · rw [if_pos hf]
      have hfr : q - ⌊q⌋ = 1 / 2 := by
        rw [← hf]; unfold Int.fract; ring
      by_cases he : Even ⌊q⌋
      · rw [if_pos he]
        rw [abs_le]
        constructor <;> [linarith; linarith]
      · rw [if_neg he]
        rw [abs_le]
        push_cast
        constructor <;> [linarith; linarith]
    · rw [if_neg hf]
      rw [abs_sub_comm]
      exact abs_sub_round q
  · intro ops
    have h : ∀ gs : List (String × List (Option Nat × Int)),
        (∀ q ∈ gs, ∀ p ∈ q.2, p.2 ≠ 0) →
        ∀ q ∈ ops.foldl (fun gs op => addTerm gs op.1 op.2.1 op.2.2) gs,
          ∀ p ∈ q.2, p.2 ≠ 0 := by
      induction ops with
      | nil => intro gs hinv; exact hinv
      | cons op rest ih =>
          intro gs hinv
          exact ih _ (addTerm_no_zero_coeff hinv op.1 op.2.1 op.2.2)
    exact h initialObjectiveGroups (by decide)

/-- Witness for `C8_scale_and_drop_zero`: a store built by one `_add_term`
call with coefficient 5 contains no zero coefficient. -/
theorem C8_scale_and_drop_zero_witness :
    |((scaleWeight (1 / 2) : ℚ)) - (1 / 2) * (SCALE : ℚ)| ≤ 1 / 2 ∧
    ∀ p ∈ (("comfort", [((none : Option Nat), (5 : Int))]) :
        String × List (Option Nat × Int)).2, p.2 ≠ 0 :=
  ⟨(C8_scale_and_drop_zero.1 (1 / 2)).1,
    C8_scale_and_drop_zero.2 [("comfort", (none, 5))]
      ("comfort", [(none, 5)]) (by decide)⟩

/-! ### The backend solve driver (`apps/backend/src/scheduleSolver.py`)

The CP-SAT backend is external: it enters the embedding as an arbitrary
function (`Oracle`) from the model constraints and the currently set objective
to a raw status and a value assignment for the boolean variables (numbered by
`Nat`).  The driver code around it — tier iteration, lock-in constraints,
status labelling, extraction — is embedded faithfully. -/

inductive RawStatus where
  | optimal
  | feasible
  | infeasible
  | unknown
deriving DecidableEq, Repr

/-- The model constraints the driver can add during `solve`: the pre-existing
model (abstracted as numbered base constraints) plus the staged lock-ins
`expr >= V` / `expr <= V`, where a linear expression is its `(variable,
coefficient)` pair list (variable `none` encodes the literal constant 0 that
`_x_var` returns for an absent class). -/
inductive MCons where
  | base (idx : Nat)
  | geLin (pairs : List (Option Nat × Int)) (bound : Int)
  | leLin (pairs : List (Option Nat × Int)) (bound : Int)
deriving DecidableEq, Repr

/-- `sum(coeff * solver.Value(var))` over a pair list. -/
def pairsValue (asg : Nat → Bool) (pairs : List (Option Nat × Int)) : Int :=
  (pairs.map (fun p => match p.1 with
    | some v => if asg v then p.2 else 0
    | none => 0)).sum

/-- The external CP-SAT solver: model constraints and optional objective
(`maximize?`, expression pairs) in, raw status and assignment out. -/
def Oracle : Type :=
  List MCons → Option (Bool × List (Option Nat × Int)) → RawStatus × (Nat → Bool)

structure BSolver where
  model : List MCons
  objectiveGroups : List (String × List (Option Nat × Int))
  lexiTiers : List String
  bookmarks : List String
  x : List (String × Nat)
  z : List (String × Nat)

/-- `self.objective_groups.get(tier, [])`. -/
def lookupPairs (groups : List (String × List (Option Nat × Int))) (tier : String) :
    List (Option Nat × Int) :=
  match groups.find? (fun p => p.1 = tier) with
  | some p => p.2
  | none => []

/-- `_x_var`: the class variable, or the literal constant 0 (`none`) when the
class has no sections. -/
def xVar (self : BSolver) (cid : String) : Option Nat :=
  (self.x.find? (fun p => p.1 = cid)).map (fun p => p.2)

/-- The result dictionary of `solve`.  The infeasible returns of the source
carry only `status` (and, for staged failure, `explain`); the embedding uses
one record with empty defaults for the absent keys. -/
structure BResult where
  status : String
  explain : Option String
  chosenSections : List String
  chosenClasses : List String
  objectiveScores : List (String × Int)
  scale : Int
  lexiBounds : List (String × Int)
deriving DecidableEq, Repr

/-- `_extract_solution`. -/
def extractSolution (self : BSolver) (asg : Nat → Bool) (statusLabel : String)
    (lexibest : List (String × Int)) : BResult :=
  { status := statusLabel
    explain := none
    chosenSections := (self.z.filter (fun p => asg p.2)).map (fun p => p.1)
    chosenClasses := (self.x.filter (fun p => asg p.2)).map (fun p => p.1)
    objectiveScores := self.objectiveGroups.map (fun g => (g.1, pairsValue asg g.2))
    scale := SCALE
    lexiBounds := lexibest }

/-- `_single_pass_solve`. -/
def singlePassSolve (oracle : Oracle) (self : BSolver)
    (obj : Option (Bool × List (Option Nat × Int))) : BResult :=
  let r := oracle self.model obj
  if r.1 = RawStatus.optimal ∨ r.1 = RawStatus.feasible then
    extractSolution self r.2 (if r.1 = RawStatus.optimal then "OPTIMAL" else "FEASIBLE") []
  else
    { status := "INFEASIBLE", explain := none, chosenSections := [], chosenClasses := [],
      objectiveScores := [], scale := SCALE, lexiBounds := [] }

/-- The outcome of the staged tier loop of `solve`: the failure return
`{"status": "INFEASIBLE", "explain": f"failed at tier {tier}"}`, or fall out
of the loop with the accumulated `best_values`, the extended model, and the
assignment of the last solver call. -/
inductive StagedOut where
  | failed (tier : String)
  | done (best : List (String × Int)) (model : List MCons) (asg : Nat → Bool)

/-- The staged tier loop of `solve` (`for tier in self.lexi_tiers: ...`):
skip tiers without terms; maximize (or minimize) the tier expression; on a
raw status outside `{OPTIMAL, FEASIBLE}` return the failure naming the tier;
otherwise record the tier value and add the lock-in constraint
`expr >= tier_val` (`<=` when minimizing) before the remaining tiers. -/
def stagedLoop (oracle : Oracle) (groups : List (String × List (Option Nat × Int)))
    (maximize : Bool) :
    List String → List MCons → List (String × Int) → (Nat → Bool) → StagedOut
  | [], model, best, asg => .done best model asg
  | tier :: rest, model, best, asg =>
      let pairs := lookupPairs groups tier
      if pairs.isEmpty then stagedLoop oracle groups maximize rest model best asg
      else
        let r := oracle model (some (maximize, pairs))
        if r.1 = RawStatus.optimal ∨ r.1 = RawStatus.feasible then
          let tierVal := pairsValue r.2 pairs
          let lock := if maximize then MCons.geLin pairs tierVal
            else MCons.leLin pairs tierVal
          stagedLoop oracle groups maximize rest (model ++ [lock])
            (best ++ [(tier, tierVal)]) r.2
        else .failed tier

/-- `solve` of `apps/backend/src/scheduleSolver.py`: staged lexicographic
path when `self.lexi_tiers` is nonempty and `use_lexicographic` is set and
some tier has terms; otherwise the single-pass composite objective, with the
default bookmark objective installed when no term exists at all. -/
def bsolve (oracle : Oracle) (self : BSolver) (maximize useLexicographic : Bool) : BResult :=
  if self.lexiTiers ≠ [] ∧ useLexicographic = true then
    if self.lexiTiers.any (fun t => !(lookupPairs self.objectiveGroups t).isEmpty) then
      match stagedLoop oracle self.objectiveGroups maximize self.lexiTiers
          self.model [] (fun _ => false) with
      | .failed tier =>
          { status := "INFEASIBLE", explain := some ("failed at tier " ++ tier),
            chosenSections := [], chosenClasses := [], objectiveScores := [],
            scale := SCALE, lexiBounds := [] }
      | .done best _ asg => extractSolution self asg "OPTIMAL_OR_FEASIBLE" best
    else singlePassSolve oracle self none
  else
    let allPairs := (self.objectiveGroups.map (fun g => g.2)).flatten
    if allPairs.isEmpty then
      let newGroups := self.bookmarks.foldl
        (fun gs cid => addTerm gs "bookmarks" (xVar self cid) (scaleWeight 1))
        self.objectiveGroups
      let self2 : BSolver := { self with objectiveGroups := newGroups }
      singlePassSolve oracle self2
        (some (maximize, lookupPairs self2.objectiveGroups "bookmarks"))
    else
      singlePassSolve oracle self (some (maximize, allPairs))

/-- The staged failure behaviour described by the spec sentence, as an
inductive relation: iterating the tiers in priority order (skipping tiers
without terms, locking in `tier_expr ≥ V_t` after each maximized tier),
optimization fails at tier `t`. -/
inductive StagedFailSpec (oracle : Oracle)
    (groups : List (String × List (Option Nat × Int))) :
    List MCons → List String → String → Prop
  | skipEmpty {model rest t tier} : lookupPairs groups tier = [] →
      StagedFailSpec oracle groups model rest t →
      StagedFailSpec oracle groups model (tier :: rest) t
  | failHere {model rest tier} : lookupPairs groups tier ≠ [] →
      (oracle model (some (true, lookupPairs groups tier))).1 ≠ RawStatus.optimal →
      (oracle model (some (true, lookupPairs groups tier))).1 ≠ RawStatus.feasible →
      StagedFailSpec oracle groups model (tier :: rest) tier
  | lockStep {model rest t tier} : lookupPairs groups tier ≠ [] →
      ((oracle model (some (true, lookupPairs groups tier))).1 = RawStatus.optimal ∨
        (oracle model (some (true, lookupPairs groups tier))).1 = RawStatus.feasible) →
      StagedFailSpec oracle groups
        (model ++ [MCons.geLin (lookupPairs groups tier)
          (pairsValue (oracle model (some (true, lookupPairs groups tier))).2
            (lookupPairs groups tier))]) rest t →
      StagedFailSpec oracle groups model (tier :: rest) t

/-- The staged success behaviour described by the spec sentence, as an
inductive relation: all tiers processed in order; each tier with terms was
maximized successfully, its value `V_t` recorded, and `tier_expr ≥ V_t`
added as a hard constraint before the subsequent tiers; yielding the recorded
values, the final model, and the last solver assignment. -/
inductive StagedSucceedSpec (oracle : Oracle)
    (groups : List (String × List (Option Nat × Int))) :
    List MCons → (Nat → Bool) → List String →
      List (String × Int) → List MCons → (Nat → Bool) → Prop
  | nil {model asg} : StagedSucceedSpec oracle groups model asg [] [] model asg
  | skipEmpty {model asg rest best fm fa tier} : lookupPairs groups tier = [] →
      StagedSucceedSpec oracle groups model asg rest best fm fa →
      StagedSucceedSpec oracle groups model asg (tier :: rest) best fm fa
  | lockStep {model asg rest best fm fa tier} : lookupPairs groups tier ≠ [] →
      ((oracle model (some (true, lookupPairs groups tier))).1 = RawStatus.optimal ∨
        (oracle model (some (true, lookupPairs groups tier))).1 = RawStatus.feasible) →
      StagedSucceedSpec oracle groups
        (model ++ [MCons.geLin (lookupPairs groups tier)
          (pairsValue (oracle model (some (true, lookupPairs groups tier))).2
            (lookupPairs groups tier))])
        (oracle model (some (true, lookupPairs groups tier))).2 rest best fm fa →
      StagedSucceedSpec oracle groups model asg (tier :: rest)
        ((tier, pairsValue (oracle model (some (true, lookupPairs groups tier))).2
          (lookupPairs groups tier)) :: best) fm fa

lemma stagedLoop_failed_iff (oracle : Oracle)
    (groups : List (String × List (Option Nat × Int))) (tiers : List String)
    (model : List MCons) (best : List (String × Int)) (asg : Nat → Bool) (t : String) :
    stagedLoop oracle groups true tiers model best asg = .failed t ↔
      StagedFailSpec oracle groups model tiers t := by
  induction tiers generalizing model best asg with
  | nil =>
      simp only [stagedLoop]
      constructor
      · intro h; exact StagedOut.noConfusion h
      · intro h; cases h
  | cons tier rest ih =>
      simp only [stagedLoop]
      by_cases hp : (lookupPairs groups tier).isEmpty
      · rw [if_pos hp]
        rw [ih]
        constructor
        · intro h
          exact StagedFailSpec.skipEmpty (List.isEmpty_iff.mp hp) h
        · intro h
          cases h with
          | skipEmpty h1 h2 => exact h2
          | failHere h1 h2 h3 => exact absurd (List.isEmpty_iff.mp hp) h1
          | lockStep h1 h2 h3 => exact absurd (List.isEmpty_iff.mp hp) h1
      · rw [if_neg hp]
        have hpne : lookupPairs groups tier ≠ [] := by
          intro hc; exact hp (by rw [hc]; rfl)
        by_cases hst : (oracle model (some (true, lookupPairs groups tier))).1
              = RawStatus.optimal ∨
            (oracle model (some (true, lookupPairs groups tier))).1 = RawStatus.feasible
        · rw [if_pos hst]
          simp only [if_true]
          rw [ih]
          constructor
          · intro h
            exact StagedFailSpec.lockStep hpne hst h
          · intro h
            cases h with
            | skipEmpty h1 h2 => exact absurd h1 hpne
            | failHere h1 h2 h3 =>
                rcases hst with hst | hst
                · exact absurd hst h2
                · exact absurd hst h3
            | lockStep h1 h2 h3 => exact h3
        · rw [if_neg hst]
          push_neg at hst
          constructor
          · intro h
            cases h
            exact StagedFailSpec.failHere hpne hst.1 hst.2
          · intro h
            cases h with
            | skipEmpty h1 h2 => exact absurd h1 hpne
            | failHere h1 h2 h3 => rfl
            | lockStep h1 h2 h3 =>
                rcases h2 with h2 | h2
                · exact absurd h2 hst.1
                · exact absurd h2 hst.2

lemma stagedLoop_done_best_extends (oracle : Oracle)
    (groups : List (String × List (Option Nat × Int))) (maximize : Bool)
    (tiers : List String) :
    ∀ (model : List MCons) (best : List (String × Int)) (asg : Nat → Bool)
      (b : List (String × Int)) (fm : List MCons) (fa : Nat → Bool),
      stagedLoop oracle groups maximize tiers model best asg = .done b fm fa →
      ∃ d, b = best ++ d := by
  induction tiers with
  | nil =>
      intro model best asg b fm fa h
      simp only [stagedLoop] at h
      injection h with h1 h2 h3
      exact ⟨[], by simp [← h1]⟩
  | cons tier rest ih =>
      intro model best asg b fm fa h
      simp only [stagedLoop] at h
      by_cases hp : (lookupPairs groups tier).isEmpty
      · rw [if_pos hp] at h
        exact ih _ _ _ _ _ _ h
      · rw [if_neg hp] at h
        by_cases hst : (oracle model (some (maximize, lookupPairs groups tier))).1
              = RawStatus.optimal ∨
            (oracle model (some (maximize, lookupPairs groups tier))).1 = RawStatus.feasible
        · rw [if_pos hst] at h
          obtain ⟨d, hd⟩ := ih _ _ _ _ _ _ h
          refine ⟨(tier, pairsValue (oracle model
            (some (maximize, lookupPairs groups tier))).2 (lookupPairs groups tier)) :: d, ?_⟩
          rw [hd]
          simp
        · rw [if_neg hst] at h
          exact StagedOut.noConfusion h

lemma stagedLoop_done_iff (oracle : Oracle)
    (groups : List (String × List (Option Nat × Int))) (tiers : List String)
    (model : List MCons) (best0 : List (String × Int)) (asg : Nat → Bool)
    (bd : List (String × Int)) (fm : List MCons) (fa : Nat → Bool) :
    stagedLoop oracle groups true tiers model best0 asg = .done (best0 ++ bd) fm fa ↔
      StagedSucceedSpec oracle groups model asg tiers bd fm fa := by
  induction tiers generalizing model best0 asg bd with
  | nil =>
      simp only [stagedLoop]
      constructor
      · intro h
        injection h with h1 h2 h3
        have hbd : bd = [] := by
          have := congrArg List.length h1
          simp only [List.length_append] at this
          exact List.length_eq_zero.mp (by omega)
        rw [hbd, h2, h3]
        exact StagedSucceedSpec.nil
      · intro h
        cases h
        simp
  | cons tier rest ih =>
      simp only [stagedLoop]
      by_cases hp : (lookupPairs groups tier).isEmpty
      · rw [if_pos hp]
        rw [ih]
        constructor
        · intro h
          exact StagedSucceedSpec.skipEmpty (List.isEmpty_iff.mp hp) h
        · intro h
          cases h with
          | skipEmpty h1 h2 => exact h2
          | lockStep h1 h2 h3 => exact absurd (List.isEmpty_iff.mp hp) h1
      · rw [if_neg hp]
        have hpne : lookupPairs groups tier ≠ [] := by
          intro hc; exact hp (by rw [hc]; rfl)
        by_cases hst : (oracle model (some (true, lookupPairs groups tier))).1
              = RawStatus.optimal ∨
            (oracle model (some (true, lookupPairs groups tier))).1 = RawStatus.feasible
        · rw [if_pos hst]
          simp only [if_true]
          constructor
          · intro h
            obtain ⟨d, hd⟩ := stagedLoop_done_best_extends oracle groups true rest
              _ _ _ _ _ _ h
            rw [← List.append_cons] at hd
            have hbd : bd = (tier, pairsValue (oracle model
                (some (true, lookupPairs groups tier))).2 (lookupPairs groups tier)) :: d :=
              List.append_cancel_left hd
            rw [hbd]
            refine StagedSucceedSpec.lockStep hpne hst ((ih _ (best0 ++ [(tier,
              pairsValue (oracle model (some (true, lookupPairs groups tier))).2
                (lookupPairs groups tier))]) _ d).mp ?_)
            rw [show (best0 ++ [(tier, pairsValue (oracle model
                (some (true, lookupPairs groups tier))).2 (lookupPairs groups tier))]) ++ d
                = best0 ++ ((tier, pairsValue (oracle model
                (some (true, lookupPairs groups tier))).2 (lookupPairs groups tier)) :: d)
              from by simp]
            rw [← hbd]
            exact h
          · intro h
            cases h with
            | skipEmpty h1 h2 => exact absurd h1 hpne
            | lockStep h1 h2 h3 =>
                have := (ih _ (best0 ++ [(tier, pairsValue (oracle model
                  (some (true, lookupPairs groups tier))).2 (lookupPairs groups tier))]) _
                  _).mpr h3
                simpa using this
        · rw [if_neg hst]
          push_neg at hst
          constructor
          · intro h
            exact StagedOut.noConfusion h
          · intro h
            cases h with
            | skipEmpty h1 h2 => exact absurd h1 hpne
            | lockStep h1 h2 h3 =>
                rcases h2 with h2 | h2
                · exact absurd h2 hst.1
                · exact absurd h2 hst.2

lemma string_append_cancel_left {a b c : String} (h : a ++ b = a ++ c) : b = c := by
  have hd := congrArg String.data h
  simp only [String.data_append] at hd
  exact String.ext (List.append_cancel_left hd)

/-- The structured error returned when a staged tier fails:
`{"status": "INFEASIBLE", "explain": f"failed at tier {tier}"}`. -/
def failedTierResult (tier : String) : BResult :=
  { status := "INFEASIBLE", explain := some ("failed at tier " ++ tier),
    chosenSections := [], chosenClasses := [], objectiveScores := [],
    scale := SCALE, lexiBounds := [] }

/-- **C3 (confirmed).**  In staged lexicographic mode (nonempty tier list,
at least one tier with terms, `use_lexicographic` set, maximizing), `solve`
behaves exactly as the spec's staged procedure: it iterates the tiers in
priority order, maximizes each tier with terms, records the resulting value
`V_t` and adds `tier_t_expr ≥ V_t` as a hard constraint before the subsequent
tiers; it returns the structured error naming tier `t` iff the staged
procedure fails at `t`, and on success it returns the solution extracted from
the last assignment together with the recorded per-tier values. -/
theorem C3_staged_lexicographic (oracle : Oracle) (self : BSolver)
    (hne : self.lexiTiers ≠ [])
    (hterms : self.lexiTiers.any
      (fun t => !(lookupPairs self.objectiveGroups t).isEmpty) = true) :
    (∀ t : String,
      bsolve oracle self true true = failedTierResult t ↔
        StagedFailSpec oracle self.objectiveGroups self.model self.lexiTiers t) ∧
    (∀ (bd : List (String × Int)) (fm : List MCons) (fa : Nat → Bool),
      (stagedLoop oracle self.objectiveGroups true self.lexiTiers self.model []
          (fun _ => false) = .done bd fm fa ↔
        StagedSucceedSpec oracle self.objectiveGroups self.model (fun _ => false)
          self.lexiTiers bd fm fa) ∧
      (stagedLoop oracle self.objectiveGroups true self.lexiTiers self.model []
          (fun _ => false) = .done bd fm fa →
        bsolve oracle self true true = extractSolution self fa "OPTIMAL_OR_FEASIBLE" bd)) := by
  have hcond : self.lexiTiers ≠ [] ∧ (true : Bool) = true := ⟨hne, rfl⟩
  have hbs : bsolve oracle self true true =
      match stagedLoop oracle self.objectiveGroups true self.lexiTiers self.model []
          (fun _ => false) with
      | .failed tier => failedTierResult tier
      | .done best _ asg => extractSolution self asg "OPTIMAL_OR_FEASIBLE" best := by
    unfold bsolve
    rw [if_pos hcond, if_pos hterms]
    rfl
  refine ⟨?_, ?_⟩
  · intro t
    rcases hout : stagedLoop oracle self.objectiveGroups true self.lexiTiers self.model []
        (fun _ => false) with tier | ⟨best, fm, asg⟩
    · have hbs2 : bsolve oracle self true true = failedTierResult tier := by
        rw [hbs, hout]
      rw [hbs2]
      constructor
      · intro h
        have hexp : some ("failed at tier " ++ tier) = some ("failed at tier " ++ t) :=
          congrArg BResult.explain h
        have ht : tier = t := string_append_cancel_left (Option.some.inj hexp)
        rw [← ht]
        exact (stagedLoop_failed_iff oracle self.objectiveGroups self.lexiTiers
          self.model [] (fun _ => false) tier).mp hout
      · intro h
        have := (stagedLoop_failed_iff oracle self.objectiveGroups self.lexiTiers
          self.model [] (fun _ => false) t).mpr h
        rw [hout] at this
        injection this with h1
        rw [h1]
    · have hbs2 : bsolve oracle self true true =
          extractSolution self asg "OPTIMAL_OR_FEASIBLE" best := by
        rw [hbs, hout]
      rw [hbs2]
      constructor
      · intro h
        have hst : "OPTIMAL_OR_FEASIBLE" = "INFEASIBLE" := congrArg BResult.status h
        exact absurd hst (by decide)
      · intro h
        have := (stagedLoop_failed_iff oracle self.objectiveGroups self.lexiTiers
          self.model [] (fun _ => false) t).mpr h
        rw [hout] at this
        exact StagedOut.noConfusion this
  · intro bd fm fa
    refine ⟨stagedLoop_done_iff oracle self.objectiveGroups self.lexiTiers
      self.model [] (fun _ => false) bd fm fa, ?_⟩
    intro hdone
    rw [hbs, hdone]

/-- Witness for `C3_staged_lexicographic`: a single-tier solver whose oracle
always answers `OPTIMAL`. -/
theorem C3_staged_lexicographic_witness :
    let oracle : Oracle := fun _ _ => (RawStatus.optimal, fun _ => true)
    let self : BSolver :=
      { model := [], objectiveGroups := [("bookmarks", [(some 0, 1000)]),
          ("degree_progress", []), ("comfort", []), ("custom", [])],
        lexiTiers := ["bookmarks"], bookmarks := [], x := [("A", 0)], z := [] }
    (∀ t : String,
      bsolve oracle self true true = failedTierResult t ↔
        StagedFailSpec oracle self.objectiveGroups self.model self.lexiTiers t) ∧
    (∀ (bd : List (String × Int)) (fm : List MCons) (fa : Nat → Bool),
      (stagedLoop oracle self.objectiveGroups true self.lexiTiers self.model []
          (fun _ => false) = .done bd fm fa ↔
        StagedSucceedSpec oracle self.objectiveGroups self.model (fun _ => false)
          self.lexiTiers bd fm fa) ∧
      (stagedLoop oracle self.objectiveGroups true self.lexiTiers self.model []
          (fun _ => false) = .done bd fm fa →
        bsolve oracle self true true = extractSolution self fa "OPTIMAL_OR_FEASIBLE" bd)) :=
  C3_staged_lexicographic _ _ (by decide) (by decide)

lemma singlePassSolve_status (oracle : Oracle) (self : BSolver)
    (obj : Option (Bool × List (Option Nat × Int))) :
    (singlePassSolve oracle self obj).status = "OPTIMAL" ∨
    (singlePassSolve oracle self obj).status = "FEASIBLE" ∨
    (singlePassSolve oracle self obj).status = "INFEASIBLE" := by
  unfold singlePassSolve
  by_cases h : (oracle self.model obj).1 = RawStatus.optimal ∨
      (oracle self.model obj).1 = RawStatus.feasible
  · rw [if_pos h]
    by_cases h2 : (oracle self.model obj).1 = RawStatus.optimal
    · rw [if_pos h2]; left; rfl
    · rw [if_neg h2]; right; left; rfl
  · rw [if_neg h]; right; right; rfl

/-- **C7, claim as stated, refuted.**  A successful staged lexicographic run
returns the status string `"OPTIMAL_OR_FEASIBLE"`, which is none of
`OPTIMAL | FEASIBLE | INFEASIBLE | UNKNOWN`. -/
theorem C7_counterexample :
    let oracle : Oracle := fun _ _ => (RawStatus.optimal, fun _ => true)
    let self : BSolver :=
      { model := [], objectiveGroups := [("bookmarks", [(some 0, 1000)]),
          ("degree_progress", []), ("comfort", []), ("custom", [])],
        lexiTiers := ["bookmarks"], bookmarks := ["A"], x := [("A", 0)], z := [] }
    (bsolve oracle self true true).status = "OPTIMAL_OR_FEASIBLE" ∧
    "OPTIMAL_OR_FEASIBLE" ∉ (["OPTIMAL", "FEASIBLE", "INFEASIBLE", "UNKNOWN"] : List String) := by
  exact ⟨by decide, by decide⟩

/-- **C7, amended.**  The status of every solve result is one of exactly the
four strings `OPTIMAL`, `FEASIBLE`, `INFEASIBLE`, `OPTIMAL_OR_FEASIBLE`; the
label `UNKNOWN` is never produced (a raw `UNKNOWN` solver status is reported
as `INFEASIBLE`), and a successful staged run is labelled
`OPTIMAL_OR_FEASIBLE`. -/
theorem C7_status_values (oracle : Oracle) (self : BSolver)
    (maximize useLexicographic : Bool) :
    (bsolve oracle self maximize useLexicographic).status = "OPTIMAL" ∨
    (bsolve oracle self maximize useLexicographic).status = "FEASIBLE" ∨
    (bsolve oracle self maximize useLexicographic).status = "INFEASIBLE" ∨
    (bsolve oracle self maximize useLexicographic).status = "OPTIMAL_OR_FEASIBLE" := by
  unfold bsolve
  by_cases h1 : self.lexiTiers ≠ [] ∧ useLexicographic = true
  · rw [if_pos h1]
    by_cases h2 : self.lexiTiers.any
        (fun t => !(lookupPairs self.objectiveGroups t).isEmpty) = true
    · rw [if_pos h2]
      rcases hout : stagedLoop oracle self.objectiveGroups maximize self.lexiTiers
          self.model [] (fun _ => false) with tier | ⟨best, fm, asg⟩
      · right; right; left; rfl
      · right; right; right; rfl
    · rw [if_neg h2]
      rcases singlePassSolve_status oracle self none with h | h | h
      · left; exact h
      · right; left; exact h
      · right; right; left; exact h
  · rw [if_neg h1]
    by_cases h2 : ((self.objectiveGroups.map (fun g => g.2)).flatten).isEmpty
    · rw [if_pos h2]
      rcases singlePassSolve_status oracle _ _ with h | h | h
      · left; exact h
      · right; left; exact h
      · right; right; left; exact h
    · rw [if_neg h2]
      rcases singlePassSolve_status oracle self _ with h | h | h
      · left; exact h
      · right; left; exact h
      · right; right; left; exact h

/-! ### The serverless constraint evaluator (`_evaluate_constraint`)

`_evaluate_constraint` wraps its whole body in `try/except`: any raise inside
one invocation is caught by that invocation and turns its result into `None`
(after printing a warning).  The embedding therefore returns `Option BVar`,
with `none` exactly at the source's raise points.  The fresh reified variable
is allocated *before* the `match` on the constraint type (except for `when`,
which returns before the allocation), so a failing node still consumes a
fresh variable. -/

mutual
/-- The serverless constraint AST (the `type` field of the constraint
dictionaries); `other` stands for an unrecognized type string (the `case _`
branch, which raises `ValueError`). -/
inductive SCons where
  | whenC (offset : Int) (child : SCons)
  | andC (children : SConsList)
  | orC (children : SConsList)
  | notC (child : SCons)
  | rangeC (school department : String) (minNumber maxNumber : Int) (count : Int)
  | groupC (groupId : String) (count : Int)
  | courseC (courseId : String)
  | attributeC
  | other (typeName : String)

inductive SConsList where
  | nil
  | cons (head : SCons) (tail : SConsList)
end

/-- A CP-SAT boolean in the serverless model: a fresh reified variable
(numbered by allocation order) or a merged-course variable
`merged_course_vars[s][c]`. -/
inductive BVar where
  | fresh (n : Nat)
  | mergedV (s : Int) (c : String)
deriving DecidableEq, Repr

/-- The constraints `_evaluate_constraint` and
`_enforce_graduation_constraints` emit:
`AddMultiplicationEquality(var, child_vars)`, `AddMaxEquality(var,
child_vars)`, `Add(var + child_var == 1)`,
`Add(sum >= count).OnlyEnforceIf(var)`,
`Add(sum <= count - 1).OnlyEnforceIf(var.Not())`, `Add(var == merged)`, and
`Add(graduation_var == 1)`. -/
inductive ECons where
  | mulEq (v : BVar) (vs : List BVar)
  | maxEq (v : BVar) (vs : List BVar)
  | sumPairOne (v w : BVar)
  | geIf (v : BVar) (vs : List BVar) (k : Int)
  | leIfNot (v : BVar) (vs : List BVar) (k : Int)
  | eqVar (v w : BVar)
  | eqOne (v : BVar)
deriving DecidableEq, Repr

/-- The evaluator state: the fresh-variable counter and the constraints
emitted so far, in emission order. -/
structure EvalSt where
  counter : Nat
  cons : List ECons
deriving DecidableEq, Repr

/-- The evaluator context: `self.groups`, `self.courses` and
`self.last_semester_index`. -/
structure SCtx where
  groups : List (String × List String)
  courses : List SCourse
  lastSemesterIndex : Int

/-- `stoi` of the serverless `utils` module.  That module is not in the tree;
modelled after `extract_course_number` in `apps/solver/solver/utils.py`
(`int("".join(filter(str.isdigit, ...)))`), which the repository uses for the
same purpose. -/
def stoi (str : String) : Int :=
  (digitsToNat (str.toList.filter (fun c => c.isDigit)) : Int)

/-- `_find_course_ids_in_range`. -/
def findCourseIdsInRange (ctx : SCtx) (school department : String)
    (minNumber maxNumber : Int) : List String :=
  (ctx.courses.filter (fun c => c.school = school && c.department = department
      && decide (minNumber ≤ stoi c.number) && decide (stoi c.number ≤ maxNumber))).map
    (fun c => c.id)

/-- The keys of `merged_course_vars[s]` (every course id, for every semester
index in `[-1, last]`). -/
def courseIdsOf (ctx : SCtx) : List String := ctx.courses.map (fun c => c.id)

mutual
/-- `_evaluate_constraint`.  Returns `none` where the source raises (and the
exception is caught by the node's own `try`): an `and`/`or` with an empty
child list (the `assert`), a `group` whose id is not in `self.groups`
(`ValueError`) or that lists a course id absent from the catalog (`KeyError`
on `merged_course_vars`), a `course` id absent from the catalog, or an
unrecognized type string. -/
def evalConstraint (ctx : SCtx) : SCons → Int → EvalSt → Option BVar × EvalSt
  | .whenC off child, s, st =>
      evalConstraint ctx child (min (max (s + off) (-1)) ctx.lastSemesterIndex) st
  | .andC children, s, st =>
      let v := BVar.fresh st.counter
      let st1 : EvalSt := ⟨st.counter + 1, st.cons⟩
      match children with
      | .nil => (none, st1)
      | .cons c cs =>
          let r := evalChildren ctx (.cons c cs) s st1
          let cvs := r.1.filterMap id
          if cvs.isEmpty then (some v, r.2)
          else (some v, ⟨r.2.counter, r.2.cons ++ [ECons.mulEq v cvs]⟩)
  | .orC children, s, st =>
      let v := BVar.fresh st.counter
      let st1 : EvalSt := ⟨st.counter + 1, st.cons⟩
      match children with
      | .nil => (none, st1)
      | .cons c cs =>
          let r := evalChildren ctx (.cons c cs) s st1
          let cvs := r.1.filterMap id
          if cvs.isEmpty then (some v, r.2)
          else (some v, ⟨r.2.counter, r.2.cons ++ [ECons.maxEq v cvs]⟩)
  | .notC child, s, st =>
      let v := BVar.fresh st.counter
      let st1 : EvalSt := ⟨st.counter + 1, st.cons⟩
      let r := evalConstraint ctx child s st1
      match r.1 with
      | some w => (some v, ⟨r.2.counter, r.2.cons ++ [ECons.sumPairOne v w]⟩)
      | none => (some v, r.2)
  | .rangeC school department minN maxN k, s, st =>
      let v := BVar.fresh st.counter
      let st1 : EvalSt := ⟨st.counter + 1, st.cons⟩
      let rangeVars := (findCourseIdsInRange ctx school department minN maxN).map
        (fun cid => BVar.mergedV s cid)
      if rangeVars.isEmpty then (some v, st1)
      else (some v, ⟨st1.counter,
        st1.cons ++ [ECons.geIf v rangeVars k, ECons.leIfNot v rangeVars (k - 1)]⟩)
  | .groupC gid k, s, st =>
      let v := BVar.fresh st.counter
      let st1 : EvalSt := ⟨st.counter + 1, st.cons⟩
      match ctx.groups.find? (fun p => p.1 = gid) with
      | none => (none, st1)
      | some p =>
          if p.2.all (fun cid => (courseIdsOf ctx).contains cid) then
            let groupVars := p.2.map (fun cid => BVar.mergedV s cid)
            if groupVars.isEmpty then (some v, st1)
            else (some v, ⟨st1.counter,
              st1.cons ++ [ECons.geIf v groupVars k, ECons.leIfNot v groupVars (k - 1)]⟩)
          else (none, st1)
  | .courseC cid, s, st =>
      let v := BVar.fresh st.counter
      let st1 : EvalSt := ⟨st.counter + 1, st.cons⟩
      if (courseIdsOf ctx).contains cid then
        (some v, ⟨st1.counter, st1.cons ++ [ECons.eqVar v (BVar.mergedV s cid)]⟩)
      else (none, st1)
  | .attributeC, _, st =>
      (some (BVar.fresh st.counter), ⟨st.counter + 1, st.cons⟩)
  | .other _, _, st =>
      (none, ⟨st.counter + 1, st.cons⟩)

/-- The list comprehension
`[self._evaluate_constraint(child, semester_index) for child in children]`. -/
def evalChildren (ctx : SCtx) : SConsList → Int → EvalSt → List (Option BVar) × EvalSt
  | .nil, _, st => ([], st)
  | .cons c cs, s, st =>
      let r := evalConstraint ctx c s st
      let rs := evalChildren ctx cs s r.2
      (r.1 :: rs.1, rs.2)
end

def b2i (b : Bool) : Int := if b then 1 else 0

def bvarsSum (asg : BVar → Bool) (vs : List BVar) : Int :=
  (vs.map (fun v => b2i (asg v))).sum

/-- Satisfaction of an emitted constraint by an assignment of the CP-SAT
booleans (multiplication of booleans is AND, max is OR). -/
def ECons.sat (asg : BVar → Bool) : ECons → Prop
  | .mulEq v vs => asg v = vs.all asg
  | .maxEq v vs => asg v = vs.any asg
  | .sumPairOne v w => b2i (asg v) + b2i (asg w) = 1
  | .geIf v vs k => asg v = true → k ≤ bvarsSum asg vs
  | .leIfNot v vs k => asg v = false → bvarsSum asg vs ≤ k
  | .eqVar v w => asg v = asg w
  | .eqOne v => asg v = true

instance (asg : BVar → Bool) : (e : ECons) → Decidable (e.sat asg)
  | .mulEq v vs => inferInstanceAs (Decidable (asg v = vs.all asg))
  | .maxEq v vs => inferInstanceAs (Decidable (asg v = vs.any asg))
  | .sumPairOne v w => inferInstanceAs (Decidable (b2i (asg v) + b2i (asg w) = 1))
  | .geIf v vs k => inferInstanceAs (Decidable (asg v = true → k ≤ bvarsSum asg vs))
  | .leIfNot v vs k => inferInstanceAs (Decidable (asg v = false → bvarsSum asg vs ≤ k))
  | .eqVar v w => inferInstanceAs (Decidable (asg v = asg w))
  | .eqOne v => inferInstanceAs (Decidable (asg v = true))

/-- The boolean variables a constraint mentions. -/
def ECons.vars : ECons → List BVar
  | .mulEq v vs => v :: vs
  | .maxEq v vs => v :: vs
  | .sumPairOne v w => [v, w]
  | .geIf v vs _ => v :: vs
  | .leIfNot v vs _ => v :: vs
  | .eqVar v w => [v, w]
  | .eqOne v => [v]

/-- The fresh-variable index of `v`, if any, is below `k`. -/
def BVar.freshIdxLt : BVar → Nat → Prop
  | .fresh n, k => n < k
  | .mergedV _ _, _ => True

instance : (v : BVar) → (k : Nat) → Decidable (v.freshIdxLt k)
  | .fresh n, k => inferInstanceAs (Decidable (n < k))
  | .mergedV _ _, _ => inferInstanceAs (Decidable True)

/-- Every fresh variable mentioned by the emitted constraints has already
been allocated. -/
def EvalSt.wf (st : EvalSt) : Prop :=
  ∀ e ∈ st.cons, ∀ v ∈ e.vars, v.freshIdxLt st.counter

instance (st : EvalSt) : Decidable st.wf :=
  inferInstanceAs (Decidable (∀ e ∈ st.cons, ∀ v ∈ e.vars, v.freshIdxLt st.counter))

/-- `_enforce_graduation_constraints`: evaluate at the last semester index,
`assert` the result is not `None` (a `none` aborts the build with an
`AssertionError`), and pin the graduation variable to 1. -/
def enforceGraduationConstraints (ctx : SCtx) (c : SCons) (st : EvalSt) : Option EvalSt :=
  match evalConstraint ctx c ctx.lastSemesterIndex st with
  | (none, _) => none
  | (some v, st2) => some ⟨st2.counter, st2.cons ++ [ECons.eqOne v]⟩

lemma list_all_congr_on {vs : List BVar} {f g : BVar → Bool}
    (h : ∀ v ∈ vs, f v = g v) : vs.all f = vs.all g := by
  induction vs with
  | nil => rfl
  | cons x t ih =>
      simp only [List.all_cons]
      rw [h x (List.mem_cons_self _ _), ih (fun v hv => h v (List.mem_cons_of_mem _ hv))]

lemma list_any_congr_on {vs : List BVar} {f g : BVar → Bool}
    (h : ∀ v ∈ vs, f v = g v) : vs.any f = vs.any g := by
  induction vs with
  | nil => rfl
  | cons x t ih =>
      simp only [List.any_cons]
      rw [h x (List.mem_cons_self _ _), ih (fun v hv => h v (List.mem_cons_of_mem _ hv))]

lemma bvarsSum_congr_on {vs : List BVar} {asg1 asg2 : BVar → Bool}
    (h : ∀ v ∈ vs, asg1 v = asg2 v) : bvarsSum asg1 vs = bvarsSum asg2 vs := by
  unfold bvarsSum
  rw [List.map_congr_left (fun v hv => by rw [h v hv])]

lemma ECons.sat_congr (e : ECons) (asg1 asg2 : BVar → Bool)
    (h : ∀ v ∈ e.vars, asg1 v = asg2 v) : e.sat asg1 ↔ e.sat asg2 := by
  cases e with
  | mulEq v vs =>
      simp only [ECons.sat]
      rw [h v (by simp [ECons.vars]),
        list_all_congr_on (fun w hw => h w (by simp [ECons.vars, hw]))]
  | maxEq v vs =>
      simp only [ECons.sat]
      rw [h v (by simp [ECons.vars]),
        list_any_congr_on (fun w hw => h w (by simp [ECons.vars, hw]))]
  | sumPairOne v w =>
      simp only [ECons.sat]
      rw [h v (by simp [ECons.vars]), h w (by simp [ECons.vars])]
  | geIf v vs k =>
      simp only [ECons.sat]
      rw [h v (by simp [ECons.vars]),
        bvarsSum_congr_on (fun w hw => h w (by simp [ECons.vars, hw]))]
  | leIfNot v vs k =>
      simp only [ECons.sat]
      rw [h v (by simp [ECons.vars]),
        bvarsSum_congr_on (fun w hw => h w (by simp [ECons.vars, hw]))]
  | eqVar v w =>
      simp only [ECons.sat]
      rw [h v (by simp [ECons.vars]), h w (by simp [ECons.vars])]
  | eqOne v =>
      simp only [ECons.sat]
      rw [h v (by simp [ECons.vars])]

/-- A satisfying assignment is unaffected at constraints whose variables all
predate the counter when the variable `fresh st.counter` is overwritten. -/
lemma sat_update_fresh {st : EvalSt} (hwf : st.wf) (asg : BVar → Bool) (b : Bool)
    (e : ECons) (he : e ∈ st.cons) (hsat : ECons.sat asg e) :
    ECons.sat (fun w => if w = BVar.fresh st.counter then b else asg w) e := by
  refine (ECons.sat_congr e asg _ ?_).mp hsat
  intro v hv
  have hlt := hwf e he v hv
  cases v with
  | fresh n =>
      have hn : n < st.counter := hlt
      rw [if_neg (by intro hc; injection hc with hc; omega)]
  | mergedV s2 c2 =>
      rw [if_neg (by intro hc; exact BVar.noConfusion hc)]

lemma evalConstraint_none_cons (ctx : SCtx) :
    ∀ (c : SCons) (s : Int) (st : EvalSt),
      (evalConstraint ctx c s st).1 = none → (evalConstraint ctx c s st).2.cons = st.cons
  | .whenC off child, s, st, h =>
      evalConstraint_none_cons ctx child _ st h
  | .andC .nil, _, _, _ => rfl
  | .andC (.cons c cs), s, st, h => by
      exfalso
      simp only [evalConstraint] at h
      split at h <;> exact Option.noConfusion h
  | .orC .nil, _, _, _ => rfl
  | .orC (.cons c cs), s, st, h => by
      exfalso
      simp only [evalConstraint] at h
      split at h <;> exact Option.noConfusion h
  | .notC child, s, st, h => by
      exfalso
      simp only [evalConstraint] at h
      split at h <;> exact Option.noConfusion h
  | .rangeC school department minN maxN k, s, st, h => by
      exfalso
      simp only [evalConstraint] at h
      split at h <;> exact Option.noConfusion h
  | .groupC gid k, s, st, h => by
      rcases hf : ctx.groups.find? (fun p => p.1 = gid) with - | p
      · simp only [evalConstraint, hf]
      · simp only [evalConstraint, hf] at h ⊢
        by_cases hall : (p.2.all fun cid => (courseIdsOf ctx).contains cid) = true
        · rw [if_pos hall] at h
          exfalso
          split at h <;> exact Option.noConfusion h
        · rw [if_neg hall]
  | .courseC cid, s, st, h => by
      simp only [evalConstraint] at h ⊢
      by_cases hc : (courseIdsOf ctx).contains cid = true
      · rw [if_pos hc] at h
        exact absurd h (by simp)
      · rw [if_neg hc]
  | .attributeC, _, _, h => by
      exact absurd h (by simp [evalConstraint])
  | .other _, _, _, _ => rfl

lemma evalChildren_none_cons (ctx : SCtx) :
    ∀ (cs : SConsList) (s : Int) (st : EvalSt),
      (∀ r ∈ (evalChildren ctx cs s st).1, r = none) →
      (evalChildren ctx cs s st).2.cons = st.cons
  | .nil, _, _, _ => rfl
  | .cons c cs, s, st, h => by
      have h1 : (evalConstraint ctx c s st).1 = none := by
        apply h
        simp only [evalChildren]
        exact List.mem_cons_self _ _
      have hc1 : (evalConstraint ctx c s st).2.cons = st.cons :=
        evalConstraint_none_cons ctx c s st h1
      have h2 : ∀ r ∈ (evalChildren ctx cs s (evalConstraint ctx c s st).2).1, r = none := by
        intro r hr
        apply h
        simp only [evalChildren]
        exact List.mem_cons_of_mem _ hr
      have hc2 := evalChildren_none_cons ctx cs s (evalConstraint ctx c s st).2 h2
      simp only [evalChildren]
      rw [hc2, hc1]

/-- **C6, claim as stated, refuted.**  With the group `"G"` present but
empty, the graduation build over the hard constraint "at least 1 course of
G" succeeds and emits only `graduation_var == 1` with the reified variable
left unconstrained, so the assignment setting every variable to true
satisfies all emitted constraints — the model is satisfiable, not
INFEASIBLE.  An absent group `"H"` is degraded to a warning (`None`), not an
unsatisfiable count. -/
theorem C6_counterexample :
    let ctx : SCtx := ⟨[("G", [])], [], 0⟩
    let st0 : EvalSt := ⟨0, []⟩
    enforceGraduationConstraints ctx (SCons.groupC "G" 1) st0
        = some ⟨1, [ECons.eqOne (BVar.fresh 0)]⟩ ∧
    (∀ e ∈ [ECons.eqOne (BVar.fresh 0)], ECons.sat (fun _ => true) e) ∧
    evalConstraint ctx (SCons.groupC "H" 1) 0 st0 = (none, ⟨1, []⟩) := by
  exact ⟨by decide, by decide, by decide⟩

/-- **C6, amended.**  When a counting constraint (group or range) refers to
an *absent* group, evaluation degrades the reference error to a warning and
yields no variable (`none`), so the constraint is dropped at its use site
(the graduation build then fails its assertion); when the referenced set
*exists but is empty* (or a range matches no courses), the reified variable
is created with no attached constraints, so a hard constraint requiring a
positive count over the empty set is vacuously satisfiable: the graduation
model extends any satisfying assignment, and is not made INFEASIBLE. -/
theorem C6_empty_count_not_infeasible (ctx : SCtx) (gid : String) (k : Int) (s : Int)
    (st : EvalSt) :
    (ctx.groups.find? (fun p => p.1 = gid) = none →
      evalConstraint ctx (SCons.groupC gid k) s st = (none, ⟨st.counter + 1, st.cons⟩)) ∧
    (∀ p : String × List String, ctx.groups.find? (fun q => q.1 = gid) = some p →
      p.2 = [] →
      evalConstraint ctx (SCons.groupC gid k) s st
        = (some (BVar.fresh st.counter), ⟨st.counter + 1, st.cons⟩)) ∧
    (∀ school department : String, ∀ minN maxN : Int,
      findCourseIdsInRange ctx school department minN maxN = [] →
      evalConstraint ctx (SCons.rangeC school department minN maxN k) s st
        = (some (BVar.fresh st.counter), ⟨st.counter + 1, st.cons⟩)) ∧
    (∀ p : String × List String, ctx.groups.find? (fun q => q.1 = gid) = some p →
      p.2 = [] → st.wf →
      ∀ asg : BVar → Bool, (∀ e ∈ st.cons, ECons.sat asg e) →
        enforceGraduationConstraints ctx (SCons.groupC gid k) st
            = some ⟨st.counter + 1, st.cons ++ [ECons.eqOne (BVar.fresh st.counter)]⟩ ∧
          ∀ e ∈ st.cons ++ [ECons.eqOne (BVar.fresh st.counter)],
            ECons.sat (fun w => if w = BVar.fresh st.counter then true else asg w) e) := by
  have hgroupEmpty : ∀ p : String × List String, ∀ s2 : Int,
      ctx.groups.find? (fun q => q.1 = gid) = some p → p.2 = [] →
      evalConstraint ctx (SCons.groupC gid k) s2 st
        = (some (BVar.fresh st.counter), ⟨st.counter + 1, st.cons⟩) := by
    intro p s2 hp hempty
    simp only [evalConstraint, hp, hempty]
    rfl
  refine ⟨?_, ?_, ?_, ?_⟩
  · intro h
    simp only [evalConstraint]
    rw [h]
  · intro p hp hempty
    exact hgroupEmpty p s hp hempty
  · intro school department minN maxN hrange
    simp only [evalConstraint]
    rw [hrange]
    rfl
  · intro p hp hempty hwf asg hsat
    constructor
    · unfold enforceGraduationConstraints
      rw [hgroupEmpty p ctx.lastSemesterIndex hp hempty]
    · intro e he
      rcases List.mem_append.mp he with he | he
      · exact sat_update_fresh hwf asg true e he (hsat e he)
      · simp only [List.mem_singleton] at he
        rw [he]
        simp [ECons.sat]

/-- Witness for `C6_empty_count_not_infeasible` at a context with the empty
group `"G"` and no courses. -/
theorem C6_empty_count_not_infeasible_witness :
    let ctx : SCtx := ⟨[("G", [])], [], 0⟩
    let st0 : EvalSt := ⟨0, []⟩
    enforceGraduationConstraints ctx (SCons.groupC "G" 1) st0
        = some ⟨1, [] ++ [ECons.eqOne (BVar.fresh 0)]⟩ ∧
      ∀ e ∈ ([] : List ECons) ++ [ECons.eqOne (BVar.fresh 0)],
        ECons.sat (fun w => if w = BVar.fresh 0 then true else false) e :=
  (C6_empty_count_not_infeasible ⟨[("G", [])], [], 0⟩ "G" 1 0 ⟨0, []⟩).2.2.2
    ("G", []) (by decide) (by decide) (by decide) (fun _ => false) (by decide)

/-- **C9 (confirmed).**  For an `and`/`or` node with a nonempty child list
all of whose children fail to evaluate (each yields `None`), the node's
reified boolean variable is still created and returned, no constraint
mentioning it is emitted (indeed the failing children emit no constraints at
all), the build is not aborted, and any satisfying assignment of the
pre-existing constraints extends to one giving the variable either value —
the model is not made infeasible and the solver may assign the variable
freely. -/
theorem C9_failed_children_unconstrained (ctx : SCtx) (c0 : SCons) (cs0 : SConsList)
    (s : Int) (st : EvalSt)
    (hfail : ∀ r ∈ (evalChildren ctx (SConsList.cons c0 cs0) s
      ⟨st.counter + 1, st.cons⟩).1, r = none)
    (hwf : st.wf) :
    (evalConstraint ctx (SCons.andC (SConsList.cons c0 cs0)) s st
        = (some (BVar.fresh st.counter),
          (evalChildren ctx (SConsList.cons c0 cs0) s ⟨st.counter + 1, st.cons⟩).2) ∧
      evalConstraint ctx (SCons.orC (SConsList.cons c0 cs0)) s st
        = (some (BVar.fresh st.counter),
          (evalChildren ctx (SConsList.cons c0 cs0) s ⟨st.counter + 1, st.cons⟩).2)) ∧
    (evalChildren ctx (SConsList.cons c0 cs0) s ⟨st.counter + 1, st.cons⟩).2.cons
      = st.cons ∧
    (∀ b : Bool, ∀ asg : BVar → Bool, (∀ e ∈ st.cons, ECons.sat asg e) →
      ∀ e ∈ (evalChildren ctx (SConsList.cons c0 cs0) s ⟨st.counter + 1, st.cons⟩).2.cons,
        ECons.sat (fun w => if w = BVar.fresh st.counter then b else asg w) e) := by
  have hfm : ((evalChildren ctx (SConsList.cons c0 cs0) s
      ⟨st.counter + 1, st.cons⟩).1).filterMap id = [] := by
    rw [List.filterMap_eq_nil_iff]
    intro a ha
    exact hfail a ha
  have hcons := evalChildren_none_cons ctx (SConsList.cons c0 cs0) s
    ⟨st.counter + 1, st.cons⟩ hfail
  refine ⟨⟨?_, ?_⟩, hcons, ?_⟩
  · simp only [evalConstraint]
    rw [hfm]
    rfl
  · simp only [evalConstraint]
    rw [hfm]
    rfl
  · intro b asg hsat e he
    rw [hcons] at he
    exact sat_update_fresh hwf asg b e he (hsat e he)

/-- Witness for `C9_failed_children_unconstrained`: an `and` node whose two
children are a reference to the missing group `"G"` and a constraint of
invalid type `"bogus"`. -/
theorem C9_failed_children_unconstrained_witness :
    let ctx : SCtx := ⟨[], [], 0⟩
    let children := SConsList.cons (SCons.groupC "G" 1)
      (SConsList.cons (SCons.other "bogus") SConsList.nil)
    (evalConstraint ctx (SCons.andC children) 0 ⟨0, []⟩
        = (some (BVar.fresh 0), (evalChildren ctx children 0 ⟨1, []⟩).2) ∧
      evalConstraint ctx (SCons.orC children) 0 ⟨0, []⟩
        = (some (BVar.fresh 0), (evalChildren ctx children 0 ⟨1, []⟩).2)) ∧
    (evalChildren ctx children 0 ⟨1, []⟩).2.cons = [] ∧
    (∀ b : Bool, ∀ asg : BVar → Bool, (∀ e ∈ ([] : List ECons), ECons.sat asg e) →
      ∀ e ∈ (evalChildren ctx children 0 ⟨1, []⟩).2.cons,
        ECons.sat (fun w => if w = BVar.fresh 0 then b else asg w) e) :=
  C9_failed_children_unconstrained ⟨[], [], 0⟩ (SCons.groupC "G" 1)
    (SConsList.cons (SCons.other "bogus") SConsList.nil) 0 ⟨0, []⟩
    (by decide) (by decide)

end PlanEdu
